import Mathlib

/-!
# Verification development for `EthCollider.py`

A shallow embedding of the core functions of the Ethereum address collider:
the hex formatting helper `hexa`, the rejection-sampling key generator
`randomforkey`, the address derivation `compute_adr`, the Etherscan balance
client `check_balance`, the multiprocessing worker loop
`worker_generate_addresses`, and the startup validation of the main program.

External effects are made explicit parameters:
* OS randomness (`os.urandom` condensed through SHA-256 in `hashrand`) becomes
  a list of sampled 256-bit candidate integers;
* the elliptic-curve library (`mulG`, `Public_key`) and the Keccak-256
  `hexdigest` become fields of an `ECLib` record, where `mulG = none` models
  an exception raised by the library (caught by `compute_adr`);
* each HTTP request to the oracle becomes one `OracleResponse`, indexed by the
  attempt number;
* the worker's per-iteration inputs (key sample, derived address string,
  balance-query outcome) become a list of `IterInput`, and a
  `KeyboardInterrupt` is modelled as arriving at the loop-iteration boundary
  where the input list is exhausted.
-/

namespace EthCollider

/-! ## Hex formatting (`hexa`, embedding Python's `hex`) -/

/-- The character Python's `hex` uses for the digit `d < 16`:
`'0'..'9'` for `d < 10`, `'a'..'f'` otherwise. -/
def hexDigitChar (d : Nat) : Char :=
  if d < 10 then Char.ofNat (48 + d) else Char.ofNat (87 + d)

/-- Numeric value of a lowercase hex character (inverse of `hexDigitChar`),
as used when parsing a hex string back with base 16. -/
def hexCharVal (c : Char) : Nat :=
  if 97 ≤ c.toNat then c.toNat - 87 else c.toNat - 48

/-- Fuel-driven big-endian hex conversion: the digit-extraction loop behind
Python's `hex`.  `fuel ≥ n` suffices, since `n` has at most `n` hex digits. -/
def toHexAux : Nat → Nat → List Char → List Char
  | 0, _, acc => acc
  | fuel + 1, n, acc =>
    if n = 0 then acc
    else toHexAux fuel (n / 16) (hexDigitChar (n % 16) :: acc)

/-- The characters of Python's `hex(n)` without the `0x` prefix:
lowercase hex digits, no leading zeros, and `"0"` for zero. -/
def hexReprChars (n : Nat) : List Char :=
  if n = 0 then ['0'] else toHexAux n n []

/-- `hexa` from the source, on character lists: take `hex(cha)[2:]`, strip a
trailing `'L'` (dead Python-2 compatibility branch), and left-pad with `'0'`
until the length reaches 64. -/
def hexaChars (cha : Nat) : List Char :=
  let hexas := hexReprChars cha
  let hexas := if hexas.getLast? = some 'L' then hexas.dropLast else hexas
  List.replicate (64 - hexas.length) '0' ++ hexas

/-- `hexa(cha)`: zero-padded 64-character lowercase hex string of `cha`. -/
def hexa (cha : Nat) : String :=
  String.mk (hexaChars cha)

/-- Parsing a big-endian hex string back to a number, as `int(s, 16)` does. -/
def parseHexBE (s : String) : Nat :=
  s.data.foldl (fun a c => 16 * a + hexCharVal c) 0

/-- `c` is a lowercase hexadecimal symbol: a decimal digit (codes 48–57) or
one of the letters `a`–`f` (codes 97–102). -/
def isHexChar (c : Char) : Bool :=
  decide ((48 ≤ c.toNat ∧ c.toNat ≤ 57) ∨ (97 ≤ c.toNat ∧ c.toNat ≤ 102))

/-! ## Key generation (`randomforkey`) -/

/-- The secp256k1 curve order `r` from `randomforkey`: private keys must
satisfy `1 ≤ key < secp256k1_order`. -/
def secp256k1_order : Nat :=
  0xFFFFFFFFFFFFFFFFFFFFFFFFFFFFFFFEBAAEDCE6AF48A03BBFD25E8CD0364141

/-- `randomforkey`: rejection-sampling loop over the stream of candidate
integers produced by `int(hashrand(1024), 16)`.  The loop keeps drawing while
`candint < 1 or candint >= r`; an exhausted sample list (the loop never
finding a valid candidate within the given prefix) is `none`. -/
def randomforkey : List Nat → Option Nat
  | [] => none
  | cand :: rest =>
    if cand < 1 ∨ secp256k1_order ≤ cand then randomforkey rest
    else some cand

/-! ## Address derivation (`compute_adr`) -/

/-- The external elliptic-curve and hash library used by `compute_adr`
(`mulG`, `Public_key`, `lib.python_sha3.sha3_256(...).hexdigest()`).
`mulG priv = none` models an exception raised anywhere inside the library
calls of the `try` block (caught by `compute_adr`); `some (x, y)` is the
public point.  `keccak_hexdigest` maps the hex characters of the public key
to the hex characters of the Keccak-256 digest (`hexdigest` of a real
Keccak-256 always has 64 lowercase hex characters). -/
structure ECLib where
  mulG : Nat → Option (Nat × Nat)
  keccak_hexdigest : List Char → List Char

/-- `compute_adr(priv_num)`: derive the public point, format the two
coordinates with `hexa`, hash with Keccak-256 and keep the last 40 hex
characters (`hash_result[-40:]`).  Any exception is caught and the sentinel
string `"x"` is returned instead. -/
def compute_adr (lib : ECLib) (priv_num : Nat) : String :=
  match lib.mulG priv_num with
  | none => "x"
  | some (x, y) =>
    let pubkeyhex := hexaChars x ++ hexaChars y
    let hash_result := lib.keccak_hexdigest pubkeyhex
    String.mk (hash_result.drop (hash_result.length - 40))

/-! ## Balance query (`check_balance`) -/

/-- Outcome of one HTTP request to the Etherscan oracle, as seen by one
iteration of the retry loop of `check_balance`:
* `timeout` — `requests.exceptions.Timeout`;
* `networkError` — any other `requests.exceptions.RequestException`,
  including the `HTTPError` raised by `raise_for_status()`;
* `badJson` — the body was not JSON-decodable (`json.JSONDecodeError`);
* `json status message result` — a decoded JSON object, with its optional
  `status`, `message` and `result` fields. -/
inductive OracleResponse where
  | timeout
  | networkError
  | badJson
  | json (status : Option String) (message : Option String)
      (result : Option String)
deriving DecidableEq

/-- The rate-limit test of `check_balance`:
`'rate limit' in data.get('message', '').lower()`. -/
def isRateLimitMsg (message : String) : Bool :=
  decide (List.IsInfix "rate limit".data (message.data.map Char.toLower))

/-- `max_retries = 3` from `check_balance`. -/
def max_retries : Nat := 3

/-- `retry_delay = 1` (seconds) from `check_balance`. -/
def retry_delay : Nat := 1

/-- What one call of `check_balance` did: the returned value (`none` is
Python's `None`, the error/not-found return), the number of HTTP requests
made, and the list of `time.sleep` delays performed inside the retry loop
(in seconds, in order). -/
structure BalanceCallResult where
  result : Option String
  attempts : Nat
  sleeps : List Nat
deriving DecidableEq

/-- The `for attempt in range(max_retries)` loop of `check_balance`,
with `remaining` iterations left and `attempt` the current index.  Each
iteration performs one request (`oracle attempt`) and then follows the
source's branches:
* `Timeout` / `RequestException`: sleep `retry_delay` when this is not the
  last attempt, then go to the next attempt;
* rate-limited JSON (`status == '0'` and `'rate limit'` in the lowercased
  message): sleep `retry_delay * (attempt + 1)`, then go to the next attempt;
* `status == '1'`: return `data.get('result', '0')`;
* any other decoded JSON: return `None` immediately;
* undecodable body: return `None` immediately.
Falling off the loop returns `None`. -/
def check_balance_attempts (oracle : Nat → OracleResponse) :
    Nat → Nat → BalanceCallResult
  | _, 0 => ⟨none, 0, []⟩
  | attempt, remaining + 1 =>
    match oracle attempt with
    | .timeout =>
      let rest := check_balance_attempts oracle (attempt + 1) remaining
      ⟨rest.result, rest.attempts + 1,
        (if attempt < max_retries - 1 then [retry_delay] else []) ++ rest.sleeps⟩
    | .networkError =>
      let rest := check_balance_attempts oracle (attempt + 1) remaining
      ⟨rest.result, rest.attempts + 1,
        (if attempt < max_retries - 1 then [retry_delay] else []) ++ rest.sleeps⟩
    | .badJson => ⟨none, 1, []⟩
    | .json status message result =>
      if status = some "0" ∧ isRateLimitMsg (message.getD "") = true then
        let rest := check_balance_attempts oracle (attempt + 1) remaining
        ⟨rest.result, rest.attempts + 1,
          retry_delay * (attempt + 1) :: rest.sleeps⟩
      else if status = some "1" then ⟨some (result.getD "0"), 1, []⟩
      else ⟨none, 1, []⟩

/-- `check_balance(address, api_key)`.  The empty string is the falsy
`api_key` (`os.getenv(..., '')` yields `''` when the variable is unset):
in that case the function warns and returns `None` without making any
request.  Otherwise it runs the retry loop. -/
def check_balance (api_key : String) (oracle : Nat → OracleResponse) :
    BalanceCallResult :=
  if api_key = "" then ⟨none, 0, []⟩
  else check_balance_attempts oracle 0 max_retries

/-! ## Worker loop (`worker_generate_addresses`) -/

/-- The environment-determined outcome of one iteration of the worker loop:
the sampled private key (`randomforkey()`), the string returned by
`compute_adr` (the sentinel `"x"` on failure), and the value returned by
`check_balance` (`none` on a query error). -/
structure IterInput where
  key : Nat
  addr : String
  balance : Option String
deriving DecidableEq

/-- The messages a worker puts on the result queue, one constructor per
`'type'` field of the dictionaries in the source. -/
inductive WorkerEvent where
  | progress (worker_id : Nat) (count : Nat)
  | found (worker_id : Nat) (address : String) (private_key : String)
      (balance : String)
  | stopped (worker_id : Nat) (count : Nat)
  | error (worker_id : Nat) (msg : String)
deriving DecidableEq

/-- The found test of the worker loop, Python's
`if balance and balance != '0'`: the value must be truthy (not `None`, not
the empty string) and different from `'0'`. -/
def balance_found : Option String → Bool
  | none => false
  | some s => !(s = "") && !(s = "0")

/-- `worker_generate_addresses(worker_id, ...)`: the event sequence the
worker puts on the result queue, given the per-iteration environment
outcomes and the current `addresses_checked` counter.  Per iteration:
skip without counting when the address is the failure sentinel `"x"`;
otherwise increment the counter, emit a `progress` event when the counter
is a multiple of 10, then — when the balance is truthy and not `'0'` —
emit one `found` event carrying the address, `hexa` of the key and the
balance, and `break`.  A `KeyboardInterrupt` at the iteration boundary
where the inputs run out emits one `stopped` event with the final count. -/
def worker_generate_addresses (worker_id : Nat) :
    List IterInput → Nat → List WorkerEvent
  | [], count => [.stopped worker_id count]
  | it :: rest, count =>
    if it.addr = "x" then
      worker_generate_addresses worker_id rest count
    else
      (if (count + 1) % 10 = 0 then
        [WorkerEvent.progress worker_id (count + 1)]
      else []) ++
      (if balance_found it.balance then
        [WorkerEvent.found worker_id it.addr (hexa it.key)
          (it.balance.getD "")]
      else
        worker_generate_addresses worker_id rest (count + 1))

/-- Is this event a `progress` message? -/
def WorkerEvent.isProgress : WorkerEvent → Bool
  | .progress _ _ => true
  | _ => false

/-- Is this event a `found` message? -/
def WorkerEvent.isFound : WorkerEvent → Bool
  | .found _ _ _ _ => true
  | _ => false

/-- The `count` field of the event, for the messages that carry one
(`progress` and `stopped`). -/
def WorkerEvent.count? : WorkerEvent → Option Nat
  | .progress _ c => some c
  | .stopped _ c => some c
  | _ => none

/-- The `count` field of a `progress` event only. -/
def WorkerEvent.progressCount? : WorkerEvent → Option Nat
  | .progress _ c => some c
  | _ => none

/-- The `count` fields of the `progress` events of a sequence, in order. -/
def progressCounts (evs : List WorkerEvent) : List Nat :=
  evs.filterMap WorkerEvent.progressCount?

/-- All `count` fields of a sequence (`progress` and `stopped`), in order. -/
def allCounts (evs : List WorkerEvent) : List Nat :=
  evs.filterMap WorkerEvent.count?

/-- Numeric value of a decimal digit string, for reading the oracle's
balance strings (wei amounts serialised in decimal). -/
def decValue (s : String) : Nat :=
  s.data.foldl (fun a c => 10 * a + (c.toNat - 48)) 0

/-- `s` is a canonical decimal numeral: nonempty, all digit characters
(codes 48–57), and without a leading zero (first code at least 49) unless it
is exactly `"0"`.  The Etherscan balance field is such a numeral. -/
def decCanon (s : String) : Bool :=
  !(s = "") && s.data.all (fun c => 48 ≤ c.toNat && c.toNat ≤ 57) &&
    (s = "0" || s.data.head?.elim false (fun c => 49 ≤ c.toNat))

/-! ## Main-program startup (`__main__`) -/

/-- The process environment the main block reads: the
`ETHERSCAN_API_KEY` variable (`none` when unset) and whether the
`lib/G_Table` resource file exists. -/
structure Env where
  etherscan_api_key : Option String
  gtable_exists : Bool
deriving DecidableEq

/-- How startup ends: `exit code` for `sys.exit(code)` before any worker is
created, or `started api_key num_workers` once validation passed and the
worker processes are spawned with that key. -/
inductive StartupOutcome where
  | exit (code : Nat)
  | started (api_key : String) (num_workers : Nat)
deriving DecidableEq

/-- The validation prefix of the `__main__` block: read the API key with
default `''`, exit with status 1 when it is falsy; exit with status 1 when
`lib/G_Table` is missing; otherwise spawn one worker per CPU core, handing
each the key. -/
def mainStartup (env : Env) (cpu_count : Nat) : StartupOutcome :=
  let api_key := env.etherscan_api_key.getD ""
  if api_key = "" then .exit 1
  else if env.gtable_exists = false then .exit 1
  else .started api_key cpu_count

/-! ## Theorems about the retry loop and startup -/

/-- Every branch of the retry loop that has at least one iteration left makes
at least one HTTP request. -/
theorem check_balance_attempts_pos (oracle : Nat → OracleResponse)
    (attempt remaining : Nat) :
    1 ≤ (check_balance_attempts oracle attempt (remaining + 1)).attempts := by
  cases h : oracle attempt with
  | timeout => simp [check_balance_attempts, h]
  | networkError => simp [check_balance_attempts, h]
  | badJson => simp [check_balance_attempts, h]
  | json status message result =>
    simp only [check_balance_attempts, h]
    split
    · simp
    · split <;> simp

/-- C3: every private key returned by `randomforkey` satisfies
`1 ≤ key < secp256k1_order`, and an out-of-range candidate (zero or at least
the curve order) is rejected: the loop discards it and resamples from the
rest of the random stream. -/
theorem randomforkey_range :
    (∀ samples k, randomforkey samples = some k →
      1 ≤ k ∧ k < secp256k1_order) ∧
    (∀ cand rest, (cand < 1 ∨ secp256k1_order ≤ cand) →
      randomforkey (cand :: rest) = randomforkey rest) := by
  constructor
  · intro samples
    induction samples with
    | nil => intro k h; simp [randomforkey] at h
    | cons c rest ih =>
      intro k h
      rw [randomforkey] at h
      split at h
      · exact ih k h
      · rename_i hcond
        push_neg at hcond
        cases h
        omega
  · intro cand rest h
    rw [randomforkey, if_pos h]

/-- Witness for `randomforkey_range`: the out-of-range candidates `0` and
`secp256k1_order` are resampled, and the returned key `7` is in range. -/
theorem randomforkey_range_witness :
    randomforkey [0, secp256k1_order, 7] = randomforkey [secp256k1_order, 7] ∧
    1 ≤ 7 ∧ 7 < secp256k1_order :=
  ⟨randomforkey_range.2 0 [secp256k1_order, 7] (by decide),
   randomforkey_range.1 [0, secp256k1_order, 7] 7 (by decide)⟩

/-- C1: against an oracle whose every request times out, `check_balance`
makes exactly `max_retries = 3` attempts, sleeping the fixed delay between
consecutive attempts, and then returns Python's `None` — the terminal error
value of the call — to the caller. -/
theorem check_balance_always_timeout (api_key : String)
    (oracle : Nat → OracleResponse) (hkey : api_key ≠ "")
    (htimeout : ∀ i, oracle i = OracleResponse.timeout) :
    check_balance api_key oracle =
      { result := none, attempts := 3, sleeps := [1, 1] } ∧
    max_retries = 3 := by
  refine ⟨?_, rfl⟩
  simp [check_balance, hkey, check_balance_attempts,
    htimeout 0, htimeout 1, htimeout 2, max_retries, retry_delay]

/-- Witness for `check_balance_always_timeout` at a concrete key and the
constant timeout oracle. -/
theorem check_balance_always_timeout_witness :
    check_balance "k" (fun _ => OracleResponse.timeout) =
      { result := none, attempts := 3, sleeps := [1, 1] } ∧
    max_retries = 3 :=
  check_balance_always_timeout "k" (fun _ => OracleResponse.timeout)
    (by decide) (fun _ => rfl)

/-- C7: a non-JSON-decodable body, or a decoded response whose status is
neither success (`'1'`) nor the retried rate-limit case, ends the call at
once: one single request, no backoff sleep, `None` returned to the caller. -/
theorem check_balance_no_retry_immediate (api_key : String)
    (oracle : Nat → OracleResponse) (hkey : api_key ≠ "")
    (h : oracle 0 = OracleResponse.badJson ∨
      ∃ status message result,
        oracle 0 = OracleResponse.json status message result ∧
        status ≠ some "1" ∧
        ¬(status = some "0" ∧ isRateLimitMsg (message.getD "") = true)) :
    check_balance api_key oracle =
      { result := none, attempts := 1, sleeps := [] } := by
  rcases h with hbad | ⟨st, msg, res, hj, h1, h0⟩
  · simp [check_balance, hkey, check_balance_attempts, hbad, max_retries]
  · simp only [check_balance, if_neg hkey, max_retries]
    simp only [check_balance_attempts, hj]
    rw [if_neg h0, if_neg h1]

/-- Witness for `check_balance_no_retry_immediate`: an oracle that always
returns an undecodable body is answered after exactly one request. -/
theorem check_balance_no_retry_immediate_witness :
    check_balance "k" (fun _ => OracleResponse.badJson) =
      { result := none, attempts := 1, sleeps := [] } :=
  check_balance_no_retry_immediate "k" (fun _ => OracleResponse.badJson)
    (by decide) (Or.inl rfl)

/-- C9: rate-limited responses on the first two attempts followed by a
success on the third give back the successful balance, after backing off
`retry_delay * 1` and then `retry_delay * 2` seconds between the attempts. -/
theorem check_balance_rate_limit_then_success (api_key : String)
    (oracle : Nat → OracleResponse) (m0 m1 : String) (r0 r1 : Option String)
    (m2 : Option String) (bal : String) (hkey : api_key ≠ "")
    (h0 : oracle 0 = OracleResponse.json (some "0") (some m0) r0)
    (hr0 : isRateLimitMsg m0 = true)
    (h1 : oracle 1 = OracleResponse.json (some "0") (some m1) r1)
    (hr1 : isRateLimitMsg m1 = true)
    (h2 : oracle 2 = OracleResponse.json (some "1") m2 (some bal)) :
    check_balance api_key oracle =
      { result := some bal, attempts := 3, sleeps := [1, 2] } := by
  simp [check_balance, hkey, check_balance_attempts, h0, h1, h2, hr0, hr1,
    max_retries, retry_delay]

/-- Witness for `check_balance_rate_limit_then_success` with a concrete
rate-limit message and balance. -/
theorem check_balance_rate_limit_then_success_witness :
    check_balance "k"
      (fun i => if i < 2 then
        OracleResponse.json (some "0") (some "Max rate limit reached") none
      else OracleResponse.json (some "1") (some "OK") (some "42")) =
      { result := some "42", attempts := 3, sleeps := [1, 2] } :=
  check_balance_rate_limit_then_success "k" _
    "Max rate limit reached" "Max rate limit reached" none none (some "OK")
    "42" (by decide) (by decide) (by decide) (by decide) (by decide)
    (by decide)

/-- C8 counterexample: a decoded response with `status = '1'` but no
`result` field is answered with the successful balance string `'0'`
(`data.get('result', '0')`), not with the `None` error value — so the code
does not report a missing balance field as a malformed response. -/
theorem check_balance_missing_result_zero :
    (check_balance "k"
      (fun _ => OracleResponse.json (some "1") none none)).result = some "0" ∧
    (check_balance "k"
      (fun _ => OracleResponse.json (some "1") none none)).result ≠ none := by
  decide

/-- C8 amended: a decoded response missing the `status` field is answered
with `None` (an error, not a success) after a single request, but a decoded
response with `status = '1'` missing the `result` field is treated as a
successful zero balance `'0'`, not as an error. -/
theorem check_balance_missing_fields (api_key : String)
    (oracle : Nat → OracleResponse) (hkey : api_key ≠ "") :
    (∀ message result,
      oracle 0 = OracleResponse.json none message result →
      check_balance api_key oracle =
        { result := none, attempts := 1, sleeps := [] }) ∧
    (∀ message,
      oracle 0 = OracleResponse.json (some "1") message none →
      check_balance api_key oracle =
        { result := some "0", attempts := 1, sleeps := [] }) := by
  constructor
  · intro message result hj
    simp [check_balance, hkey, check_balance_attempts, hj, max_retries]
  · intro message hj
    simp [check_balance, hkey, check_balance_attempts, hj, max_retries]

/-- Witness for `check_balance_missing_fields` at two concrete oracles. -/
theorem check_balance_missing_fields_witness :
    check_balance "k" (fun _ => OracleResponse.json none none none) =
      { result := none, attempts := 1, sleeps := [] } ∧
    check_balance "k" (fun _ => OracleResponse.json (some "1") none none) =
      { result := some "0", attempts := 1, sleeps := [] } :=
  ⟨(check_balance_missing_fields "k" _ (by decide)).1 none none rfl,
   (check_balance_missing_fields "k" _ (by decide)).2 none rfl⟩

/-- C5: a missing or empty `ETHERSCAN_API_KEY` is caught by the startup
validation, which exits with status 1 before any worker exists; and whenever
startup does hand a key to the workers, that key is nonempty, so the
credential guard of `check_balance` (the only path making zero requests)
never fires during the search: every per-call query makes at least one
request. -/
theorem missing_credential_startup (env : Env) (n : Nat) :
    ((env.etherscan_api_key = none ∨ env.etherscan_api_key = some "") →
      mainStartup env n = StartupOutcome.exit 1) ∧
    (∀ key w, mainStartup env n = StartupOutcome.started key w →
      key ≠ "" ∧ ∀ oracle, 1 ≤ (check_balance key oracle).attempts) := by
  constructor
  · rintro (h | h) <;> simp [mainStartup, h]
  · intro key w h
    simp only [mainStartup] at h
    split at h
    · exact absurd h (by simp)
    · split at h
      · exact absurd h (by simp)
      · rename_i hkey _
        cases h
        refine ⟨hkey, fun oracle => ?_⟩
        simp only [check_balance, if_neg hkey]
        exact check_balance_attempts_pos oracle 0 2

/-- Witness for `missing_credential_startup`: an unset variable exits with
status 1, and a spawned worker's queries always make a request. -/
theorem missing_credential_startup_witness :
    mainStartup ⟨none, true⟩ 4 = StartupOutcome.exit 1 ∧
    1 ≤ (check_balance "k" (fun _ => OracleResponse.timeout)).attempts :=
  ⟨(missing_credential_startup ⟨none, true⟩ 4).1 (Or.inl rfl),
   ((missing_credential_startup ⟨some "k", true⟩ 4).2 "k" 4 (by decide)).2
     (fun _ => OracleResponse.timeout)⟩

/-- C6 counterexample: on the error path (an exception from the EC/hash
library) `compute_adr` returns the sentinel string `"x"`, whose length is 1,
not a 40-character hex string — the shape claim fails on the error path. -/
theorem compute_adr_error_path :
    compute_adr ⟨fun _ => none, fun _ => []⟩ 1 = "x" ∧
    (compute_adr ⟨fun _ => none, fun _ => []⟩ 1).length ≠ 40 := by
  decide

/-- C6 amended: whenever the EC library call succeeds and the Keccak-256
`hexdigest` has its guaranteed shape (64 lowercase hex characters), the
address returned by `compute_adr` is exactly 40 characters, all of them
hexadecimal symbols; only the caught-exception path returns the sentinel
`"x"` instead. -/
theorem compute_adr_shape (lib : ECLib) (k x y : Nat)
    (hmul : lib.mulG k = some (x, y))
    (hlen : ∀ s, (lib.keccak_hexdigest s).length = 64)
    (hhex : ∀ s, ∀ c ∈ lib.keccak_hexdigest s, isHexChar c = true) :
    (compute_adr lib k).length = 40 ∧
    ∀ c ∈ (compute_adr lib k).data, isHexChar c = true := by
  have hlen' := hlen (hexaChars x ++ hexaChars y)
  simp only [compute_adr, hmul]
  constructor
  · show (String.mk _).length = 40
    simp only [String.length, List.length_drop]
    omega
  · intro c hc
    exact hhex (hexaChars x ++ hexaChars y) c (List.drop_subset _ _ hc)

/-- Witness for `compute_adr_shape` with a concrete library model. -/
theorem compute_adr_shape_witness :
    (compute_adr ⟨fun _ => some (1, 2),
      fun _ => List.replicate 64 'a'⟩ 1).length = 40 :=
  (compute_adr_shape ⟨fun _ => some (1, 2), fun _ => List.replicate 64 'a'⟩
    1 1 2 rfl (fun _ => by simp)
    (fun s c hc => by rw [List.eq_of_mem_replicate hc]; decide)).1

/-! ## Theorems about `hexa` -/

/-- `hexCharVal` inverts `hexDigitChar` on the sixteen digits. -/
theorem hexCharVal_hexDigitChar (d : Nat) (h : d < 16) :
    hexCharVal (hexDigitChar d) = d := by
  interval_cases d <;> decide

/-- Every digit character produced is a hexadecimal symbol. -/
theorem isHexChar_hexDigitChar (d : Nat) (h : d < 16) :
    isHexChar (hexDigitChar d) = true := by
  interval_cases d <;> decide

/-- The accumulator of the digit-extraction loop is a suffix of its output. -/
theorem toHexAux_acc (fuel : Nat) :
    ∀ n acc, n ≤ fuel → toHexAux fuel n acc = toHexAux fuel n [] ++ acc := by
  induction fuel with
  | zero => intro n acc _; simp [toHexAux]
  | succ fuel ih =>
    intro n acc h
    by_cases hn : n = 0
    · simp [toHexAux, hn]
    · have hdiv : n / 16 ≤ fuel := by
        have hlt : n / 16 < n := Nat.div_lt_self (Nat.pos_of_ne_zero hn) (by omega)
        omega
      simp only [toHexAux, hn, if_false]
      rw [ih (n / 16) (hexDigitChar (n % 16) :: acc) hdiv,
        ih (n / 16) [hexDigitChar (n % 16)] hdiv, List.append_assoc]
      simp

/-- Folding base-16 over the extracted digits of `n` recovers `n`, shifted
past whatever the accumulator already held. -/
theorem toHexAux_foldl (fuel : Nat) :
    ∀ n a, n ≤ fuel →
      List.foldl (fun x c => 16 * x + hexCharVal c) a (toHexAux fuel n []) =
        a * 16 ^ (toHexAux fuel n []).length + n := by
  induction fuel with
  | zero =>
    intro n a h
    have hn : n = 0 := by omega
    subst hn
    simp [toHexAux]
  | succ fuel ih =>
    intro n a h
    by_cases hn : n = 0
    · subst hn; simp [toHexAux]
    · have hdiv : n / 16 ≤ fuel := by
        have hlt : n / 16 < n := Nat.div_lt_self (Nat.pos_of_ne_zero hn) (by omega)
        omega
      have hrw : toHexAux (fuel + 1) n [] =
          toHexAux fuel (n / 16) [] ++ [hexDigitChar (n % 16)] := by
        simp only [toHexAux, hn, if_false]
        exact toHexAux_acc fuel (n / 16) [hexDigitChar (n % 16)] hdiv
      rw [hrw, List.foldl_append, List.foldl_cons, List.foldl_nil,
        ih (n / 16) a hdiv, hexCharVal_hexDigitChar _ (Nat.mod_lt n (by omega)),
        List.length_append]
      calc 16 * (a * 16 ^ (toHexAux fuel (n / 16) []).length + n / 16) + n % 16
          = a * (16 ^ (toHexAux fuel (n / 16) []).length * 16) +
              (16 * (n / 16) + n % 16) := by ring
        _ = a * 16 ^ ((toHexAux fuel (n / 16) []).length + [hexDigitChar (n % 16)].length) + n := by
            rw [List.length_singleton, pow_succ, Nat.div_add_mod]

/-- `n < 16 ^ k` has at most `k` extracted hex digits. -/
theorem toHexAux_length_le (fuel : Nat) :
    ∀ n k, n ≤ fuel → n < 16 ^ k → (toHexAux fuel n []).length ≤ k := by
  induction fuel with
  | zero =>
    intro n k h _
    have hn : n = 0 := by omega
    subst hn
    simp [toHexAux]
  | succ fuel ih =>
    intro n k h hk
    by_cases hn : n = 0
    · subst hn; simp [toHexAux]
    · cases k with
      | zero => simp at hk; omega
      | succ k =>
        have hdiv : n / 16 ≤ fuel := by
          have hlt : n / 16 < n := Nat.div_lt_self (Nat.pos_of_ne_zero hn) (by omega)
          omega
        have hdivlt : n / 16 < 16 ^ k := by
          rw [Nat.div_lt_iff_lt_mul (by omega : (0 : Nat) < 16)]
          calc n < 16 ^ (k + 1) := hk
            _ = 16 ^ k * 16 := by rw [pow_succ]
        have hrw : toHexAux (fuel + 1) n [] =
            toHexAux fuel (n / 16) [] ++ [hexDigitChar (n % 16)] := by
          simp only [toHexAux, hn, if_false]
          exact toHexAux_acc fuel (n / 16) [hexDigitChar (n % 16)] hdiv
        rw [hrw, List.length_append, List.length_singleton]
        have := ih (n / 16) k hdiv hdivlt
        omega

/-- Every character the digit-extraction loop emits is a produced digit, or
came from the accumulator. -/
theorem toHexAux_mem (fuel : Nat) :
    ∀ n acc c, c ∈ toHexAux fuel n acc →
      c ∈ acc ∨ ∃ d, d < 16 ∧ c = hexDigitChar d := by
  induction fuel with
  | zero => intro n acc c hc; simp only [toHexAux] at hc; exact Or.inl hc
  | succ fuel ih =>
    intro n acc c hc
    by_cases hn : n = 0
    · rw [toHexAux, if_pos hn] at hc; exact Or.inl hc
    · rw [toHexAux, if_neg hn] at hc
      rcases ih (n / 16) _ c hc with hmem | hd
      · rcases List.mem_cons.mp hmem with rfl | hmem'
        · exact Or.inr ⟨n % 16, Nat.mod_lt n (by omega), rfl⟩
        · exact Or.inl hmem'
      · exact Or.inr hd

/-- Parsing `hex(n)` with base 16 recovers `n`. -/
theorem hexReprChars_foldl (n : Nat) :
    List.foldl (fun x c => 16 * x + hexCharVal c) 0 (hexReprChars n) = n := by
  by_cases hn : n = 0
  · subst hn; decide
  · rw [hexReprChars, if_neg hn]
    simpa using toHexAux_foldl n n 0 le_rfl

/-- `hex(n)` has at most 64 digits for `n < 16 ^ 64`. -/
theorem hexReprChars_length_le (n : Nat) (h : n < 16 ^ 64) :
    (hexReprChars n).length ≤ 64 := by
  by_cases hn : n = 0
  · simp [hexReprChars, hn]
  · rw [hexReprChars, if_neg hn]
    exact toHexAux_length_le n n 64 le_rfl h

/-- All characters of `hex(n)` are hexadecimal symbols. -/
theorem hexReprChars_hex (n : Nat) : ∀ c ∈ hexReprChars n, isHexChar c = true := by
  intro c hc
  by_cases hn : n = 0
  · rw [hexReprChars, if_pos hn] at hc
    simp at hc
    subst hc
    decide
  · rw [hexReprChars, if_neg hn] at hc
    rcases toHexAux_mem n n [] c hc with h | ⟨d, hd, rfl⟩
    · simp at h
    · exact isHexChar_hexDigitChar d hd

/-- The Python-2 `'L'`-suffix branch of `hexa` is dead: `hex(n)` never ends
in `'L'`. -/
theorem hexReprChars_getLast_ne (n : Nat) :
    (hexReprChars n).getLast? ≠ some 'L' := by
  intro h
  have hmem : 'L' ∈ hexReprChars n := by
    have hTail := List.dropLast_append_getLast? 'L' (Option.mem_def.mpr h)
    rw [← hTail]
    simp
  have := hexReprChars_hex n 'L' hmem
  exact absurd this (by decide)

/-- `hexa` is `hex(n)` left-padded with zeros to 64 characters. -/
theorem hexaChars_eq (n : Nat) :
    hexaChars n =
      List.replicate (64 - (hexReprChars n).length) '0' ++ hexReprChars n := by
  simp only [hexaChars]
  rw [if_neg (hexReprChars_getLast_ne n)]

/-- Leading zeros do not change the parsed value. -/
theorem foldl_replicate_zero (k : Nat) :
    List.foldl (fun x c => 16 * x + hexCharVal c) 0 (List.replicate k '0') = 0 := by
  induction k with
  | zero => rfl
  | succ k ih =>
    rw [List.replicate_succ, List.foldl_cons]
    exact ih

/-- C10: for every `n` whose hexadecimal representation has at most 64
digits (`n < 16 ^ 64 = 2 ^ 256`), `hexa n` is a string of exactly 64
hexadecimal characters, and parsing it back in base 16 recovers `n`. -/
theorem hexa_roundtrip (n : Nat) (h : n < 16 ^ 64) :
    (hexa n).length = 64 ∧ (∀ c ∈ (hexa n).data, isHexChar c = true) ∧
    parseHexBE (hexa n) = n := by
  have hlen := hexReprChars_length_le n h
  refine ⟨?_, ?_, ?_⟩
  · show (String.mk (hexaChars n)).length = 64
    simp only [String.length]
    rw [hexaChars_eq, List.length_append, List.length_replicate]
    omega
  · intro c hc
    rw [show (hexa n).data = hexaChars n from rfl, hexaChars_eq] at hc
    rcases List.mem_append.mp hc with h1 | h2
    · rw [List.eq_of_mem_replicate h1]; decide
    · exact hexReprChars_hex n c h2
  · show List.foldl _ 0 (hexa n).data = n
    rw [show (hexa n).data = hexaChars n from rfl, hexaChars_eq,
      List.foldl_append, foldl_replicate_zero, hexReprChars_foldl]

/-- Witness for `hexa_roundtrip` at `n = 255`. -/
theorem hexa_roundtrip_witness :
    255 < 16 ^ 64 ∧ (hexa 255).length = 64 ∧ parseHexBE (hexa 255) = 255 :=
  ⟨by norm_num, (hexa_roundtrip 255 (by norm_num)).1,
   (hexa_roundtrip 255 (by norm_num)).2.2⟩

/-! ## Theorems about the worker loop -/

/-- The worker always emits at least one event. -/
theorem worker_ne_nil (w : Nat) (l : List IterInput) (c : Nat) :
    worker_generate_addresses w l c ≠ [] := by
  induction l generalizing c with
  | nil => simp [worker_generate_addresses]
  | cons it rest ih =>
    rw [worker_generate_addresses]
    split
    · exact ih c
    · intro hc
      rw [List.append_eq_nil] at hc
      rcases hc with ⟨-, hc2⟩
      split at hc2
      · simp at hc2
      · exact ih (c + 1) hc2

/-- Every count a worker run emits is at least the starting counter. -/
theorem worker_counts_ge (w : Nat) (l : List IterInput) :
    ∀ c, ∀ n ∈ allCounts (worker_generate_addresses w l c), c ≤ n := by
  induction l with
  | nil =>
    intro c n hn
    simp [worker_generate_addresses, allCounts, WorkerEvent.count?] at hn
    omega
  | cons it rest ih =>
    intro c n hn
    rw [worker_generate_addresses] at hn
    split at hn
    · exact ih c n hn
    · rw [allCounts, List.filterMap_append, List.mem_append] at hn
      rcases hn with hn | hn
      · split at hn
        · simp [WorkerEvent.count?] at hn
          omega
        · simp at hn
      · split at hn
        · simp [WorkerEvent.count?] at hn
        · have := ih (c + 1) n hn
          omega

/-- Every `progress` count a worker run emits exceeds the starting
counter. -/
theorem worker_progressCounts_gt (w : Nat) (l : List IterInput) :
    ∀ c, ∀ n ∈ progressCounts (worker_generate_addresses w l c), c < n := by
  induction l with
  | nil =>
    intro c n hn
    simp [worker_generate_addresses, progressCounts,
      WorkerEvent.progressCount?] at hn
  | cons it rest ih =>
    intro c n hn
    rw [worker_generate_addresses] at hn
    split at hn
    · exact ih c n hn
    · rw [progressCounts, List.filterMap_append, List.mem_append] at hn
      rcases hn with hn | hn
      · split at hn
        · simp [WorkerEvent.progressCount?] at hn
          omega
        · simp at hn
      · split at hn
        · simp [WorkerEvent.progressCount?] at hn
        · have := ih (c + 1) n hn
          omega

/-- Every `progress` count a worker run emits is a multiple of 10. -/
theorem worker_progressCounts_mod (w : Nat) (l : List IterInput) :
    ∀ c, ∀ n ∈ progressCounts (worker_generate_addresses w l c),
      n % 10 = 0 := by
  induction l with
  | nil =>
    intro c n hn
    simp [worker_generate_addresses, progressCounts,
      WorkerEvent.progressCount?] at hn
  | cons it rest ih =>
    intro c n hn
    rw [worker_generate_addresses] at hn
    split at hn
    · exact ih c n hn
    · rw [progressCounts, List.filterMap_append, List.mem_append] at hn
      rcases hn with hn | hn
      · split at hn
        · rename_i hmod
          simp [WorkerEvent.progressCount?] at hn
          omega
        · simp at hn
      · split at hn
        · simp [WorkerEvent.progressCount?] at hn
        · exact ih (c + 1) n hn

/-- The counts of a worker run (its `progress` counts and the final
`stopped` count) are non-decreasing. -/
theorem worker_allCounts_chain (w : Nat) (l : List IterInput) :
    ∀ c, List.Chain' (· ≤ ·) (allCounts (worker_generate_addresses w l c)) := by
  induction l with
  | nil =>
    intro c
    simp [worker_generate_addresses, allCounts, WorkerEvent.count?]
  | cons it rest ih =>
    intro c
    rw [worker_generate_addresses]
    split
    · exact ih c
    · rw [allCounts, List.filterMap_append, List.chain'_append]
      refine ⟨?_, ?_, ?_⟩
      · split
        · simp [WorkerEvent.count?]
        · simp
      · split
        · simp [WorkerEvent.count?]
        · exact ih (c + 1)
      · intro x hx y hy
        split at hx
        · simp [WorkerEvent.count?] at hx
          split at hy
          · simp [WorkerEvent.count?] at hy
          · have hy' : y ∈ allCounts (worker_generate_addresses w rest (c + 1)) :=
              List.mem_of_mem_head? hy
            have := worker_counts_ge w rest (c + 1) y hy'
            omega
        · simp at hx

/-- The `progress` counts of a worker run are strictly increasing. -/
theorem worker_progressCounts_chain (w : Nat) (l : List IterInput) :
    ∀ c, List.Chain' (· < ·)
      (progressCounts (worker_generate_addresses w l c)) := by
  induction l with
  | nil =>
    intro c
    simp [worker_generate_addresses, progressCounts,
      WorkerEvent.progressCount?]
  | cons it rest ih =>
    intro c
    rw [worker_generate_addresses]
    split
    · exact ih c
    · rw [progressCounts, List.filterMap_append, List.chain'_append]
      refine ⟨?_, ?_, ?_⟩
      · split
        · simp [WorkerEvent.progressCount?]
        · simp
      · split
        · simp [WorkerEvent.progressCount?]
        · exact ih (c + 1)
      · intro x hx y hy
        split at hx
        · simp [WorkerEvent.progressCount?] at hx
          split at hy
          · simp [WorkerEvent.progressCount?] at hy
          · have hy' : y ∈ progressCounts (worker_generate_addresses w rest (c + 1)) :=
              List.mem_of_mem_head? hy
            have := worker_progressCounts_gt w rest (c + 1) y hy'
            omega
        · simp at hx

/-- Every event of a worker run except the last is a `progress` event: the
terminal `found` or `stopped` message closes the sequence. -/
theorem worker_dropLast_progress (w : Nat) (l : List IterInput) :
    ∀ c, ∀ e ∈ (worker_generate_addresses w l c).dropLast,
      e.isProgress = true := by
  induction l with
  | nil =>
    intro c e he
    simp [worker_generate_addresses] at he
  | cons it rest ih =>
    intro c e he
    rw [worker_generate_addresses] at he
    split at he
    · exact ih c e he
    · by_cases hb : balance_found it.balance
      · rw [if_pos hb, List.dropLast_concat] at he
        split at he
        · rw [List.mem_singleton] at he
          subst he
          rfl
        · simp at he
      · rw [if_neg hb,
          List.dropLast_append_of_ne_nil _ (worker_ne_nil w rest (c + 1)),
          List.mem_append] at he
        rcases he with he | he
        · split at he
          · rw [List.mem_singleton] at he
            subst he
            rfl
          · simp at he
        · exact ih (c + 1) e he

/-- A worker run contains a `found` event exactly when some input iteration
derives an address and sees a truthy non-`'0'` balance. -/
theorem worker_any_found (w : Nat) (l : List IterInput) :
    ∀ c, (worker_generate_addresses w l c).any WorkerEvent.isFound =
      l.any (fun it => !(it.addr = "x") && balance_found it.balance) := by
  induction l with
  | nil => intro c; simp [worker_generate_addresses, WorkerEvent.isFound]
  | cons it rest ih =>
    intro c
    rw [worker_generate_addresses]
    split
    · rename_i haddr
      rw [List.any_cons]
      simp [haddr, ih c]
    · rename_i haddr
      have hprog : (if (c + 1) % 10 = 0 then
          [WorkerEvent.progress w (c + 1)] else []).any WorkerEvent.isFound =
            false := by
        split <;> rfl
      rw [List.any_append, hprog, Bool.false_or, List.any_cons]
      by_cases hb : balance_found it.balance
      · rw [if_pos hb]
        simp [haddr, hb, WorkerEvent.isFound]
      · rw [if_neg hb, ih (c + 1)]
        simp [haddr, hb]

/-- A worker run emits at most one `found` event. -/
theorem worker_countP_found (w : Nat) (l : List IterInput) :
    ∀ c, (worker_generate_addresses w l c).countP WorkerEvent.isFound ≤ 1 := by
  induction l with
  | nil =>
    intro c
    simp [worker_generate_addresses, List.countP_cons, List.countP_nil,
      WorkerEvent.isFound]
  | cons it rest ih =>
    intro c
    rw [worker_generate_addresses]
    split
    · exact ih c
    · rw [List.countP_append]
      have hprog : (if (c + 1) % 10 = 0 then
          [WorkerEvent.progress w (c + 1)] else []).countP
            WorkerEvent.isFound = 0 := by
        split <;> simp [List.countP_cons, List.countP_nil, WorkerEvent.isFound]
      rw [hprog]
      split
      · simp [List.countP_cons, List.countP_nil, WorkerEvent.isFound]
      · simpa using ih (c + 1)

/-- Any `found` event of a worker run carries the address, the `hexa`-encoded
private key and the balance of one of the processed iterations. -/
theorem worker_found_content (w : Nat) (l : List IterInput) :
    ∀ c, ∀ e ∈ worker_generate_addresses w l c, e.isFound = true →
      ∃ it ∈ l, it.addr ≠ "x" ∧ balance_found it.balance = true ∧
        e = WorkerEvent.found w it.addr (hexa it.key) (it.balance.getD "") := by
  induction l with
  | nil =>
    intro c e he hf
    simp [worker_generate_addresses] at he
    subst he
    simp [WorkerEvent.isFound] at hf
  | cons it rest ih =>
    intro c e he hf
    rw [worker_generate_addresses] at he
    split at he
    · obtain ⟨it', hmem, h1, h2, h3⟩ := ih c e he hf
      exact ⟨it', List.mem_cons_of_mem _ hmem, h1, h2, h3⟩
    · rename_i haddr
      rw [List.mem_append] at he
      rcases he with he | he
      · split at he
        · rw [List.mem_singleton] at he
          subst he
          simp [WorkerEvent.isFound] at hf
        · simp at he
      · split at he
        · rename_i hb
          rw [List.mem_singleton] at he
          subst he
          exact ⟨it, List.mem_cons_self it rest, haddr, hb, rfl⟩
        · obtain ⟨it', hmem, h1, h2, h3⟩ := ih (c + 1) e he hf
          exact ⟨it', List.mem_cons_of_mem _ hmem, h1, h2, h3⟩

/-- A decimal fold never decreases below its accumulator. -/
theorem foldl_dec_ge (l : List Char) :
    ∀ a : Nat, a ≤ l.foldl (fun x c => 10 * x + (c.toNat - 48)) a := by
  induction l with
  | nil => intro a; simp
  | cons c cs ih =>
    intro a
    rw [List.foldl_cons]
    calc a ≤ 10 * a + (c.toNat - 48) := by omega
      _ ≤ _ := ih _

/-- For canonical decimal balance strings, the worker's Python truthiness
test `balance and balance != '0'` is exactly positivity of the balance. -/
theorem balance_found_iff_pos (b : Option String)
    (hc : ∀ s, b = some s → decCanon s = true) :
    (balance_found b = true ↔ ∃ s, b = some s ∧ 0 < decValue s) := by
  cases b with
  | none => simp [balance_found]
  | some s =>
    have h := hc s rfl
    simp only [decCanon, Bool.and_eq_true, Bool.or_eq_true] at h
    obtain ⟨⟨hne, -⟩, hlead⟩ := h
    constructor
    · intro hb
      refine ⟨s, rfl, ?_⟩
      simp only [balance_found, Bool.and_eq_true, Bool.not_eq_eq_eq_not,
        Bool.not_true, decide_eq_false_iff_not] at hb
      obtain ⟨-, hs0⟩ := hb
      have hdata : s.data ≠ [] := by
        intro hd
        have hs : s = "" := String.ext hd
        simp [hs] at hne
      rcases hd : s.data with - | ⟨c0, cs⟩
      · exact absurd hd hdata
      · have hc0 : 49 ≤ c0.toNat := by
          rcases hlead with h0 | h0
          · exact absurd (by simpa using h0) hs0
          · rw [hd] at h0
            simpa using h0
        rw [decValue, hd, List.foldl_cons]
        calc 0 < 10 * 0 + (c0.toNat - 48) := by omega
          _ ≤ _ := foldl_dec_ge cs _
    · rintro ⟨s', hs', hv⟩
      injection hs' with hs'
      subst hs'
      by_cases h0 : s = ""
      · subst h0
        exact absurd hv (by decide)
      · by_cases h1 : s = "0"
        · subst h1
          exact absurd hv (by decide)
        · simp [balance_found, h0, h1]

/-- C2: a worker emits a `found` event iff some iteration both derives an
address (not the `"x"` sentinel) and sees a positive, non-error balance
(`none` — a query error — and zero balances never trigger it); at most one
`found` event is emitted; every event but the last is a `progress` event, so
nothing follows the terminal `found`; and the `found` event carries the
address, `hexa`-encoded private key and balance of the triggering
iteration. -/
theorem worker_found_spec (w : Nat) (l : List IterInput) (c : Nat)
    (hcanon : ∀ it ∈ l, ∀ s, it.balance = some s → decCanon s = true) :
    ((worker_generate_addresses w l c).any WorkerEvent.isFound = true ↔
      ∃ it ∈ l, it.addr ≠ "x" ∧ ∃ s, it.balance = some s ∧ 0 < decValue s) ∧
    (worker_generate_addresses w l c).countP WorkerEvent.isFound ≤ 1 ∧
    (∀ e ∈ (worker_generate_addresses w l c).dropLast, e.isProgress = true) ∧
    (∀ e ∈ worker_generate_addresses w l c, e.isFound = true →
      ∃ it ∈ l, it.addr ≠ "x" ∧ balance_found it.balance = true ∧
        e = WorkerEvent.found w it.addr (hexa it.key) (it.balance.getD "")) := by
  refine ⟨?_, worker_countP_found w l c, worker_dropLast_progress w l c,
    worker_found_content w l c⟩
  rw [worker_any_found w l c, List.any_eq_true]
  constructor
  · rintro ⟨it, hmem, hcond⟩
    rw [Bool.and_eq_true] at hcond
    obtain ⟨ha, hb⟩ := hcond
    refine ⟨it, hmem, by simpa using ha, ?_⟩
    exact (balance_found_iff_pos it.balance (hcanon it hmem)).mp hb
  · rintro ⟨it, hmem, ha, hpos⟩
    refine ⟨it, hmem, ?_⟩
    rw [Bool.and_eq_true]
    exact ⟨by simpa using ha,
      (balance_found_iff_pos it.balance (hcanon it hmem)).mpr hpos⟩

/-- Witness for `worker_found_spec`: a single iteration with balance `"7"`
emits a `found` event, and at most one. -/
theorem worker_found_spec_witness :
    (worker_generate_addresses 0 [⟨5, "abc", some "7"⟩] 0).any
      WorkerEvent.isFound = true ∧
    (worker_generate_addresses 0 [⟨5, "abc", some "7"⟩] 0).countP
      WorkerEvent.isFound ≤ 1 := by
  have hcanon : ∀ it ∈ [(⟨5, "abc", some "7"⟩ : IterInput)],
      ∀ s, it.balance = some s → decCanon s = true := by
    intro it hit s hs
    rw [List.mem_singleton] at hit
    subst hit
    injection hs with hs
    subst hs
    decide
  refine ⟨(worker_found_spec 0 [⟨5, "abc", some "7"⟩] 0 hcanon).1.mpr
    ⟨⟨5, "abc", some "7"⟩, by decide, by decide, "7", rfl, by decide⟩,
    (worker_found_spec 0 [⟨5, "abc", some "7"⟩] 0 hcanon).2.1⟩

/-- C4: over a worker run started at counter 0, every `progress` count is a
positive multiple of the batch size 10, the `progress` counts strictly
increase, all emitted counts (including the final `stopped` count, which may
be a partial batch) are non-decreasing, and only the last event can be the
non-`progress` (terminal) one. -/
theorem worker_progress_monotone (w : Nat) (l : List IterInput) :
    (∀ n ∈ progressCounts (worker_generate_addresses w l 0),
      n % 10 = 0 ∧ 0 < n) ∧
    List.Chain' (· < ·) (progressCounts (worker_generate_addresses w l 0)) ∧
    List.Chain' (· ≤ ·) (allCounts (worker_generate_addresses w l 0)) ∧
    (∀ e ∈ (worker_generate_addresses w l 0).dropLast, e.isProgress = true) :=
  ⟨fun n hn => ⟨worker_progressCounts_mod w l 0 n hn,
    worker_progressCounts_gt w l 0 n hn⟩,
   worker_progressCounts_chain w l 0, worker_allCounts_chain w l 0,
   worker_dropLast_progress w l 0⟩

/-- Witness for `worker_progress_monotone`: twelve counted iterations with
zero balances give one `progress` at 10 and a `stopped` at the partial
count 12. -/
theorem worker_progress_monotone_witness :
    List.Chain' (· < ·) (progressCounts
      (worker_generate_addresses 0 (List.replicate 12 ⟨1, "a", some "0"⟩) 0)) ∧
    List.Chain' (· ≤ ·) (allCounts
      (worker_generate_addresses 0 (List.replicate 12 ⟨1, "a", some "0"⟩) 0)) ∧
    10 % 10 = 0 ∧ 0 < 10 :=
  ⟨(worker_progress_monotone 0 (List.replicate 12 ⟨1, "a", some "0"⟩)).2.1,
   (worker_progress_monotone 0 (List.replicate 12 ⟨1, "a", some "0"⟩)).2.2.1,
   (worker_progress_monotone 0 (List.replicate 12 ⟨1, "a", some "0"⟩)).1 10
     (by decide)⟩

end EthCollider
